import Mathlib

/-!
Verification of the ClauseSync chunking/merge pipeline (src/app.py).

Text is modelled as `List Char`.  Python's `str.split()` (whitespace split,
no empty tokens) is `pySplit`, Python's `" ".join` is `sjoin`, and
`split_text_into_chunks` mirrors the word-accumulating loop of the source.
The float comparison `len > max_tokens * 0.75` is embedded exactly as the
integer comparison `4 * len > 3 * max_tokens`.
-/

/-- Python `str.isspace` on the whitespace characters `str.split` splits on. -/
def isPySpace (c : Char) : Bool :=
  c == ' ' || c == '\t' || c == '\n' || c == '\r' || c == '\x0b' || c == '\x0c'

/-- Worker for `pySplit`: `acc` holds the (reversed) word currently being read. -/
def splitWsAux : List Char → List Char → List (List Char)
  | [], acc => if acc.isEmpty then [] else [acc.reverse]
  | c :: cs, acc =>
    if isPySpace c then
      if acc.isEmpty then splitWsAux cs [] else acc.reverse :: splitWsAux cs []
    else splitWsAux cs (c :: acc)

/-- Python `text.split()`: maximal runs of non-whitespace characters. -/
def pySplit (text : List Char) : List (List Char) :=
  splitWsAux text []

/-- Python `" ".join(words)`. -/
def sjoin : List (List Char) → List Char
  | [] => []
  | [w] => w
  | w :: v :: ws => w ++ ' ' :: sjoin (v :: ws)

/-- One iteration of the loop in `split_text_into_chunks`:
append the word to the current chunk, and seal the chunk once
`len(" ".join(current_chunk)) > max_tokens * 0.75`. -/
def chunkStep (maxTokens : Nat) (st : List (List Char) × List (List Char))
    (w : List Char) : List (List Char) × List (List Char) :=
  let cur := st.2 ++ [w]
  if 4 * (sjoin cur).length > 3 * maxTokens then (st.1 ++ [sjoin cur], [])
  else (st.1, cur)

/-- `split_text_into_chunks(text, max_tokens=4000)` from src/app.py. -/
def split_text_into_chunks (text : List Char) (maxTokens : Nat := 4000) :
    List (List Char) :=
  let st := (pySplit text).foldl (chunkStep maxTokens) ([], [])
  if st.2.isEmpty then st.1 else st.1 ++ [sjoin st.2]

/-- Ghost variant of `chunkStep` that keeps each chunk as its list of words
instead of the joined string (used to reason about word preservation). -/
def chunkStepG (maxTokens : Nat) (st : List (List (List Char)) × List (List Char))
    (w : List Char) : List (List (List Char)) × List (List Char) :=
  let cur := st.2 ++ [w]
  if 4 * (sjoin cur).length > 3 * maxTokens then (st.1 ++ [cur], [])
  else (st.1, cur)

/-- The groups of words underlying the chunks of `split_text_into_chunks`. -/
def chunkGroups (maxTokens : Nat) (words : List (List Char)) :
    List (List (List Char)) :=
  let st := words.foldl (chunkStepG maxTokens) ([], [])
  if st.2.isEmpty then st.1 else st.1 ++ [st.2]

/-- Length of the longest whitespace-delimited word of the text. -/
def maxWordLen (text : List Char) : Nat :=
  (pySplit text).foldr (fun w a => max w.length a) 0

/-!
JSON values and the Python dynamic-typing behaviour used by
`merge_json_responses`.  `json.loads` (standard library, not repository
code) is an explicit oracle parameter `loads : String → Option Json`;
`none` stands for a `json.JSONDecodeError`.  Operations that raise
`TypeError`/`KeyError` at runtime return `Except.error`; only the decode
failure is caught by the source's `try`/`except`, so any other error
propagates out of the whole merge.
-/

/-- A parsed JSON value as produced by `json.loads`. -/
inductive Json where
  | null : Json
  | bool (b : Bool) : Json
  | num (n : Int) : Json
  | str (s : String) : Json
  | arr (elems : List Json) : Json
  | obj (fields : List (String × Json)) : Json

/-- The uncaught Python exceptions the merge body can raise. -/
inductive PyErr where
  | typeError : PyErr
  | keyError : PyErr
deriving DecidableEq

/-- Python `j == k` for a string literal `k`: true only on the equal string. -/
def jsonEqStr (j : Json) (k : String) : Bool :=
  match j with
  | .str s => s == k
  | _ => false

/-- Python `key in data`: key test on a dict, element test on a list,
substring test on a string, `TypeError` otherwise. -/
def pyContains (data : Json) (key : String) : Except PyErr Bool :=
  match data with
  | .obj kvs => .ok (kvs.any (fun kv => kv.1 == key))
  | .arr xs => .ok (xs.any (fun x => jsonEqStr x key))
  | .str s => .ok (decide (key.data <:+: s.data))
  | _ => .error .typeError

/-- First binding of `key` in a dict's field list. -/
def lookupKey : List (String × Json) → String → Option Json
  | [], _ => none
  | kv :: kvs, k => if kv.1 == k then some kv.2 else lookupKey kvs k

/-- Python `data[key]` for a string key: dict lookup, `TypeError` on any
non-dict (string indices of a list or string raise). -/
def pyIndex (data : Json) (key : String) : Except PyErr Json :=
  match data with
  | .obj kvs =>
    match lookupKey kvs key with
    | some v => .ok v
    | none => .error .keyError
  | _ => .error .typeError

/-- Python iteration of a value, as consumed by `list.extend`: a list yields
its elements, a string its one-character strings, a dict its keys;
anything else raises `TypeError`. -/
def pyElems : Json → Except PyErr (List Json)
  | .arr xs => .ok xs
  | .str s => .ok (s.data.map (fun c => .str (String.singleton c)))
  | .obj kvs => .ok (kvs.map (fun kv => .str kv.1))
  | _ => .error .typeError

/-- Python `cur.extend(v)`. -/
def pyExtend (cur : List Json) (v : Json) : Except PyErr (List Json) :=
  (pyElems v).map (fun xs => cur ++ xs)

/-- The `risk_analysis` part of the merged report. -/
structure RiskAnalysis where
  high_risk_clauses : List Json
  medium_risk_clauses : List Json
  low_risk_clauses : List Json

/-- The `compliance` part of the merged report; values are the status
strings the source manipulates. -/
structure Compliance where
  gdpr : String
  data_protection : String
  intellectual_property : String

/-- The merged report returned by `merge_json_responses`. -/
structure Report where
  risk_analysis : RiskAnalysis
  compliance : Compliance
  key_clauses : List Json

/-- The initial `merged_result` of `merge_json_responses`. -/
def defaultReport : Report :=
  ⟨⟨[], [], []⟩, ⟨"Compliant", "Compliant", "Compliant"⟩, []⟩

/-- One risk level of the inner loop: if `key in ra` then extend the
current list with `ra[key]`. -/
def mergeOneRisk (ra : Json) (key : String) (cur : List Json) :
    Except PyErr (List Json) :=
  match pyContains ra key with
  | .error e => .error e
  | .ok false => .ok cur
  | .ok true =>
    match pyIndex ra key with
    | .error e => .error e
    | .ok v => pyExtend cur v

/-- The `risk_analysis` block of the merge body (lines 100-103). -/
def mergeRisk (data : Json) (r : RiskAnalysis) : Except PyErr RiskAnalysis :=
  match pyContains data "risk_analysis" with
  | .error e => .error e
  | .ok false => .ok r
  | .ok true =>
    match pyIndex data "risk_analysis" with
    | .error e => .error e
    | .ok ra =>
      match mergeOneRisk ra "high_risk_clauses" r.high_risk_clauses with
      | .error e => .error e
      | .ok h =>
        match mergeOneRisk ra "medium_risk_clauses" r.medium_risk_clauses with
        | .error e => .error e
        | .ok m =>
          match mergeOneRisk ra "low_risk_clauses" r.low_risk_clauses with
          | .error e => .error e
          | .ok l => .ok ⟨h, m, l⟩

/-- One compliance key: downgrade to `"Non-compliant"` exactly when the
parsed object carries that string for the key. -/
def mergeOneCompliance (co : Json) (key : String) (cur : String) :
    Except PyErr String :=
  match pyContains co key with
  | .error e => .error e
  | .ok false => .ok cur
  | .ok true =>
    match pyIndex co key with
    | .error e => .error e
    | .ok v => if jsonEqStr v "Non-compliant" then .ok "Non-compliant" else .ok cur

/-- The `compliance` block of the merge body (lines 106-110). -/
def mergeCompliance (data : Json) (c : Compliance) : Except PyErr Compliance :=
  match pyContains data "compliance" with
  | .error e => .error e
  | .ok false => .ok c
  | .ok true =>
    match pyIndex data "compliance" with
    | .error e => .error e
    | .ok co =>
      match mergeOneCompliance co "gdpr" c.gdpr with
      | .error e => .error e
      | .ok g =>
        match mergeOneCompliance co "data_protection" c.data_protection with
        | .error e => .error e
        | .ok d =>
          match mergeOneCompliance co "intellectual_property" c.intellectual_property with
          | .error e => .error e
          | .ok i => .ok ⟨g, d, i⟩

/-- The `key_clauses` block of the merge body (lines 113-114). -/
def mergeKeyClauses (data : Json) (ks : List Json) : Except PyErr (List Json) :=
  match pyContains data "key_clauses" with
  | .error e => .error e
  | .ok false => .ok ks
  | .ok true =>
    match pyIndex data "key_clauses" with
    | .error e => .error e
    | .ok v => pyExtend ks v

/-- One successfully parsed object folded into the report, in source order:
risk lists, then compliance, then key clauses. -/
def mergeData (data : Json) (r : Report) : Except PyErr Report :=
  match mergeRisk data r.risk_analysis with
  | .error e => .error e
  | .ok ra =>
    match mergeCompliance data r.compliance with
    | .error e => .error e
    | .ok co =>
      match mergeKeyClauses data r.key_clauses with
      | .error e => .error e
      | .ok kc => .ok ⟨ra, co, kc⟩

/-- One loop iteration of `merge_json_responses`: a decode failure is
caught (`st.error` warning, counted in the second component); any other
exception propagates. -/
def mergeStep (loads : String → Option Json) (st : Report × Nat)
    (resp : String) : Except PyErr (Report × Nat) :=
  match loads resp with
  | none => .ok (st.1, st.2 + 1)
  | some data =>
    match mergeData data st.1 with
    | .error e => .error e
    | .ok r => .ok (r, st.2)

/-- The `for response in json_responses` loop. -/
def mergeFold (loads : String → Option Json) :
    Report × Nat → List String → Except PyErr (Report × Nat)
  | st, [] => .ok st
  | st, resp :: rs =>
    match mergeStep loads st resp with
    | .error e => .error e
    | .ok st' => mergeFold loads st' rs

/-- `merge_json_responses(json_responses)` from src/app.py, returning the
merged report together with the number of parse-failure warnings, or the
uncaught exception that aborted it. -/
def merge_json_responses (loads : String → Option Json) (rs : List String) :
    Except PyErr (Report × Nat) :=
  mergeFold loads (defaultReport, 0) rs

/-- `analyze_contract(api_key, contract_text)` from src/app.py.  The
network call `generate_chat_completion` is the oracle `complete` mapping a
chunk to its reply (`none` means the call failed after printing a
warning).  Falsy replies (`None` or `""`) are excluded by
`if analysis_result:`.  Returns the number of failed-call warnings paired
with the merge outcome. -/
def analyze_contract (loads : String → Option Json)
    (complete : List Char → Option String) (contract_text : List Char) :
    Nat × Except PyErr (Report × Nat) :=
  let chunks := split_text_into_chunks contract_text
  let failures := (chunks.filter (fun c => (complete c).isNone)).length
  let results := chunks.filterMap (fun c =>
    match complete c with
    | none => none
    | some s => if s.isEmpty then none else some s)
  (failures, merge_json_responses loads results)

/-- Whether a compliance object `co` carries exactly `"Non-compliant"` at
`key` (the condition under which `mergeOneCompliance` downgrades). -/
def dataNC (co : Json) (key : String) : Bool :=
  match pyContains co key with
  | .ok true =>
    match pyIndex co key with
    | .ok v => jsonEqStr v "Non-compliant"
    | .error _ => false
  | _ => false

/-- Whether a parsed object downgrades the compliance field `key` when it
is processed without raising. -/
def dataSetsNC (data : Json) (key : String) : Bool :=
  match pyContains data "compliance" with
  | .ok true =>
    match pyIndex data "compliance" with
    | .ok co => dataNC co key
    | .error _ => false
  | _ => false

/-- Whether one raw response downgrades the compliance field `key` when it
is processed without raising. -/
def respSetsNC (loads : String → Option Json) (key : String) (resp : String) :
    Bool :=
  match loads resp with
  | none => false
  | some data => dataSetsNC data key

/-- A concrete stand-in for `json.loads` on a few tagged inputs, used by
the concrete instances below. -/
def loadsEx : String → Option Json := fun s =>
  if s = "ncg" then some (.obj [("compliance", .obj [("gdpr", .str "Non-compliant")])])
  else if s = "cg" then some (.obj [("compliance", .obj [("gdpr", .str "Compliant")])])
  else if s = "five" then some (.num 5)
  else if s = "ralist" then some (.obj [("risk_analysis", .arr [.str "high_risk_clauses"])])
  else if s = "kc" then some (.obj [("key_clauses", .arr [.str "clauseA"])])
  else none

/-- The report obtained from the `"ncg"` response alone. -/
def reportNCG : Report :=
  ⟨⟨[], [], []⟩, ⟨"Non-compliant", "Compliant", "Compliant"⟩, []⟩

/-- The report obtained from the `"kc"` response alone. -/
def reportKC : Report :=
  ⟨⟨[], [], []⟩, ⟨"Compliant", "Compliant", "Compliant"⟩, [.str "clauseA"]⟩

/-- The report obtained from `"ncg"` followed by `"kc"`. -/
def reportNCGKC : Report :=
  ⟨⟨[], [], []⟩, ⟨"Non-compliant", "Compliant", "Compliant"⟩, [.str "clauseA"]⟩

/-! Chunker lemmas -/

theorem sjoin_append_ne (a b : List (List Char)) (ha : a ≠ []) (hb : b ≠ []) :
    sjoin (a ++ b) = sjoin a ++ ' ' :: sjoin b := by
  induction a with
  | nil => cases ha rfl
  | cons w a ih =>
    cases a with
    | nil =>
      cases b with
      | nil => cases hb rfl
      | cons v bs => rfl
    | cons u as =>
      have h1 : sjoin ((w :: u :: as) ++ b) = w ++ ' ' :: sjoin ((u :: as) ++ b) := rfl
      rw [h1, ih (by simp) ]
      simp [sjoin, List.append_assoc]

theorem sjoin_map_sjoin (gs : List (List (List Char))) (h : ∀ g ∈ gs, g ≠ []) :
    sjoin (gs.map sjoin) = sjoin gs.flatten := by
  induction gs with
  | nil => rfl
  | cons g gs ih =>
    cases gs with
    | nil => simp [sjoin]
    | cons g2 gs2 =>
      have hg : g ≠ [] := h g (by simp)
      have hrest : ∀ x ∈ g2 :: gs2, x ≠ [] := fun x hx => h x (by simp [hx])
      have hg2 : g2 ≠ [] := hrest g2 (by simp)
      have hjoin_ne : (g2 :: gs2).flatten ≠ [] := by
        simp only [List.flatten_cons]
        intro hcon
        exact hg2 (List.append_eq_nil.1 hcon).1
      calc sjoin ((g :: g2 :: gs2).map sjoin)
          = sjoin g ++ ' ' :: sjoin ((g2 :: gs2).map sjoin) := rfl
        _ = sjoin g ++ ' ' :: sjoin ((g2 :: gs2).flatten) := by rw [ih hrest]
        _ = sjoin (g ++ (g2 :: gs2).flatten) := (sjoin_append_ne _ _ hg hjoin_ne).symm
        _ = sjoin ((g :: g2 :: gs2).flatten) := by simp

theorem foldl_chunkStep_eq_G (m : Nat) (ws : List (List Char)) :
    ∀ (g : List (List (List Char))) (cur : List (List Char)),
      ws.foldl (chunkStep m) (g.map sjoin, cur) =
        ((ws.foldl (chunkStepG m) (g, cur)).1.map sjoin,
         (ws.foldl (chunkStepG m) (g, cur)).2) := by
  induction ws with
  | nil => intro g cur; rfl
  | cons w ws ih =>
    intro g cur
    simp only [List.foldl_cons, chunkStep, chunkStepG]
    by_cases h : 4 * (sjoin (cur ++ [w])).length > 3 * m
    · simp only [if_pos h]
      have h2 : (g.map sjoin) ++ [sjoin (cur ++ [w])] = (g ++ [cur ++ [w]]).map sjoin := by
        simp
      rw [h2]
      exact ih (g ++ [cur ++ [w]]) []
    · simp only [if_neg h]
      exact ih g (cur ++ [w])

theorem split_chunks_eq_groups (text : List Char) (m : Nat) :
    split_text_into_chunks text m = (chunkGroups m (pySplit text)).map sjoin := by
  unfold split_text_into_chunks chunkGroups
  have h := foldl_chunkStep_eq_G m (pySplit text) [] []
  simp only [List.map_nil] at h
  rw [h]
  by_cases he : ((pySplit text).foldl (chunkStepG m) ([], [])).2.isEmpty
  · simp [he]
  · simp [he]

theorem foldl_chunkStepG_join (m : Nat) (ws : List (List Char)) :
    ∀ g cur,
      (ws.foldl (chunkStepG m) (g, cur)).1.flatten ++ (ws.foldl (chunkStepG m) (g, cur)).2
        = g.flatten ++ cur ++ ws := by
  induction ws with
  | nil => intro g cur; simp
  | cons w ws ih =>
    intro g cur
    simp only [List.foldl_cons, chunkStepG]
    by_cases h : 4 * (sjoin (cur ++ [w])).length > 3 * m
    · simp only [if_pos h]
      rw [ih]
      simp [List.append_assoc]
    · simp only [if_neg h]
      rw [ih]
      simp [List.append_assoc]

theorem chunkGroups_join (m : Nat) (ws : List (List Char)) :
    (chunkGroups m ws).flatten = ws := by
  unfold chunkGroups
  have h := foldl_chunkStepG_join m ws [] []
  simp only [List.flatten_nil, List.nil_append] at h
  by_cases he : (ws.foldl (chunkStepG m) ([], [])).2.isEmpty
  · simp only [if_pos he]
    have h2 : (ws.foldl (chunkStepG m) ([], [])).2 = [] := by
      simpa [List.isEmpty_iff] using he
    rw [h2, List.append_nil] at h
    exact h
  · simp only [if_neg he]
    rw [List.flatten_append]
    simpa using h

theorem foldl_chunkStepG_ne_nil (m : Nat) (ws : List (List Char)) :
    ∀ g cur, (∀ x ∈ g, x ≠ []) →
      ∀ x ∈ (ws.foldl (chunkStepG m) (g, cur)).1, x ≠ [] := by
  induction ws with
  | nil => intro g cur hg; simpa using hg
  | cons w ws ih =>
    intro g cur hg
    simp only [List.foldl_cons, chunkStepG]
    by_cases h : 4 * (sjoin (cur ++ [w])).length > 3 * m
    · simp only [if_pos h]
      apply ih
      intro x hx
      rcases List.mem_append.1 hx with h1 | h1
      · exact hg x h1
      · rw [List.mem_singleton.1 h1]
        simp
    · simp only [if_neg h]
      exact ih g (cur ++ [w]) hg

theorem chunkGroups_ne_nil (m : Nat) (ws : List (List Char)) :
    ∀ gr ∈ chunkGroups m ws, gr ≠ [] := by
  unfold chunkGroups
  by_cases he : (ws.foldl (chunkStepG m) ([], [])).2.isEmpty
  · simp only [if_pos he]
    exact foldl_chunkStepG_ne_nil m ws [] [] (by simp)
  · simp only [if_neg he]
    intro gr hgr
    rcases List.mem_append.1 hgr with h1 | h1
    · exact foldl_chunkStepG_ne_nil m ws [] [] (by simp) gr h1
    · rw [List.mem_singleton.1 h1]
      intro hcon
      apply he
      rw [hcon]
      rfl

theorem splitWsAux_nonspace (w : List Char) (hw : ∀ c ∈ w, isPySpace c = false) :
    ∀ rest acc, splitWsAux (w ++ rest) acc = splitWsAux rest (w.reverse ++ acc) := by
  induction w with
  | nil => intro rest acc; simp
  | cons c w ih =>
    intro rest acc
    have hc : isPySpace c = false := hw c (by simp)
    have hw' : ∀ x ∈ w, isPySpace x = false := fun x hx => hw x (by simp [hx])
    simp only [List.cons_append, splitWsAux, hc, Bool.false_eq_true, if_false,
      List.append_eq]
    rw [ih hw' rest (c :: acc)]
    simp [List.append_assoc]

theorem splitWs_sjoin_words (ws : List (List Char))
    (h : ∀ w ∈ ws, w ≠ [] ∧ ∀ c ∈ w, isPySpace c = false) :
    pySplit (sjoin ws) = ws := by
  induction ws with
  | nil => rfl
  | cons w ws ih =>
    obtain ⟨hne, hns⟩ := h w (by simp)
    have hrest := fun x hx => h x (List.mem_cons_of_mem _ hx)
    cases ws with
    | nil =>
      show splitWsAux (sjoin [w]) [] = [w]
      have h1 := splitWsAux_nonspace w hns [] []
      simp only [List.append_nil] at h1
      have h2 : sjoin [w] = w := rfl
      rw [h2, h1]
      have h3 : w.reverse.isEmpty = false := by
        simp [List.isEmpty_iff, hne]
      simp [splitWsAux, h3]
    | cons v vs =>
      show splitWsAux (sjoin (w :: v :: vs)) [] = w :: v :: vs
      have h2 : sjoin (w :: v :: vs) = w ++ ' ' :: sjoin (v :: vs) := rfl
      rw [h2]
      have h1 := splitWsAux_nonspace w hns (' ' :: sjoin (v :: vs)) []
      simp only [List.append_nil] at h1
      rw [h1]
      have h3 : w.reverse.isEmpty = false := by
        simp [List.isEmpty_iff, hne]
      have hsp : isPySpace ' ' = true := by decide
      simp only [splitWsAux, hsp, if_true, h3, if_false, Bool.false_eq_true,
        List.reverse_reverse]
      rw [show splitWsAux (sjoin (v :: vs)) [] = pySplit (sjoin (v :: vs)) from rfl,
        ih hrest]

theorem pySplit_words_good (l : List Char) :
    ∀ w ∈ pySplit l, w ≠ [] ∧ ∀ c ∈ w, isPySpace c = false := by
  suffices h : ∀ l acc, (∀ c ∈ acc, isPySpace c = false) →
      ∀ w ∈ splitWsAux l acc, w ≠ [] ∧ ∀ c ∈ w, isPySpace c = false from
    fun w hw => h l [] (by simp) w hw
  intro l
  induction l with
  | nil =>
    intro acc hacc w hw
    simp only [splitWsAux] at hw
    by_cases he : acc.isEmpty
    · rw [if_pos he] at hw
      simp at hw
    · rw [if_neg he] at hw
      rw [List.mem_singleton.1 hw]
      constructor
      · intro hcon
        apply he
        have : acc = [] := by simpa using congrArg List.reverse hcon
        rw [this]
        rfl
      · intro x hx
        exact hacc x (by simpa using hx)
  | cons c cs ih =>
    intro acc hacc w hw
    simp only [splitWsAux] at hw
    by_cases hc : isPySpace c
    · rw [if_pos hc] at hw
      by_cases he : acc.isEmpty
      · rw [if_pos he] at hw
        exact ih [] (by simp) w hw
      · rw [if_neg he] at hw
        rcases List.mem_cons.1 hw with h1 | h1
        · rw [h1]
          constructor
          · intro hcon
            apply he
            have : acc = [] := by simpa using congrArg List.reverse hcon
            rw [this]
            rfl
          · intro x hx
            exact hacc x (by simpa using hx)
        · exact ih [] (by simp) w h1
    · rw [if_neg hc] at hw
      refine ih (c :: acc) ?_ w hw
      intro x hx
      rcases List.mem_cons.1 hx with h1 | h1
      · rw [h1]
        exact Bool.not_eq_true _ ▸ (by simpa using hc)
      · exact hacc x h1

theorem sjoin_snoc_length (l : List (List Char)) (w : List Char) :
    (sjoin (l ++ [w])).length ≤ (sjoin l).length + 1 + w.length := by
  cases l with
  | nil => simp [sjoin]
  | cons x xs =>
    rw [sjoin_append_ne (x :: xs) [w] (by simp) (by simp)]
    simp only [sjoin, List.length_append, List.length_cons]
    omega

theorem foldr_max_le (l : List (List Char)) (w : List Char) (hw : w ∈ l) :
    w.length ≤ l.foldr (fun w a => max w.length a) 0 := by
  induction l with
  | nil => simp at hw
  | cons x xs ih =>
    rcases List.mem_cons.1 hw with h1 | h1
    · rw [h1]
      simp [List.foldr_cons]
    · calc w.length ≤ xs.foldr (fun w a => max w.length a) 0 := ih h1
        _ ≤ (x :: xs).foldr (fun w a => max w.length a) 0 := by
            simp [List.foldr_cons]

theorem word_le_maxWordLen (text : List Char) (w : List Char)
    (hw : w ∈ pySplit text) : w.length ≤ maxWordLen text :=
  foldr_max_le (pySplit text) w hw

theorem foldr_max_attained (l : List (List Char)) :
    l ≠ [] → ∃ w ∈ l, w.length = l.foldr (fun w a => max w.length a) 0 := by
  induction l with
  | nil => intro h; cases h rfl
  | cons x xs ih =>
    intro _
    cases xs with
    | nil => exact ⟨x, by simp, by simp⟩
    | cons y ys =>
      obtain ⟨w, hw, hwl⟩ := ih (by simp)
      rcases le_total ((y :: ys).foldr (fun w a => max w.length a) 0) x.length with h | h
      · refine ⟨x, by simp, ?_⟩
        simp only [List.foldr_cons] at *
        omega
      · refine ⟨w, List.mem_cons_of_mem _ hw, ?_⟩
        simp only [List.foldr_cons] at *
        omega

theorem maxWordLen_attained (text : List Char) (hne : pySplit text ≠ []) :
    ∃ w ∈ pySplit text, w.length = maxWordLen text :=
  foldr_max_attained (pySplit text) hne

theorem chunks_nil_of_words_nil (text : List Char) (m : Nat)
    (h : pySplit text = []) : split_text_into_chunks text m = [] := by
  unfold split_text_into_chunks
  rw [h]
  rfl

theorem foldl_chunkStep_bound (m L : Nat) (ws : List (List Char)) :
    ∀ g cur, (∀ c ∈ g, 4 * c.length ≤ 3 * m + 4 * (L + 1)) →
      4 * (sjoin cur).length ≤ 3 * m →
      (∀ w ∈ ws, w.length ≤ L) →
      (∀ c ∈ (ws.foldl (chunkStep m) (g, cur)).1,
          4 * c.length ≤ 3 * m + 4 * (L + 1)) ∧
        4 * (sjoin (ws.foldl (chunkStep m) (g, cur)).2).length ≤ 3 * m := by
  induction ws with
  | nil =>
    intro g cur hg hcur _
    exact ⟨by simpa using hg, by simpa using hcur⟩
  | cons w ws ih =>
    intro g cur hg hcur hws
    have hwL : w.length ≤ L := hws w (by simp)
    have hws' : ∀ x ∈ ws, x.length ≤ L := fun x hx => hws x (by simp [hx])
    simp only [List.foldl_cons, chunkStep]
    by_cases h : 4 * (sjoin (cur ++ [w])).length > 3 * m
    · simp only [if_pos h]
      apply ih
      · intro c hc
        rcases List.mem_append.1 hc with h1 | h1
        · exact hg c h1
        · rw [List.mem_singleton.1 h1]
          have hb := sjoin_snoc_length cur w
          omega
      · simp [sjoin]
      · exact hws'
    · simp only [if_neg h]
      exact ih g (cur ++ [w]) hg (by omega) hws'

theorem chunk_length_bound (text : List Char) (m : Nat) :
    ∀ c ∈ split_text_into_chunks text m,
      4 * c.length ≤ 3 * m + 4 * (maxWordLen text + 1) := by
  have hb := foldl_chunkStep_bound m (maxWordLen text) (pySplit text) [] []
    (by simp) (by simp [sjoin]) (fun w hw => word_le_maxWordLen text w hw)
  unfold split_text_into_chunks
  by_cases he : ((pySplit text).foldl (chunkStep m) ([], [])).2.isEmpty
  · simp only [if_pos he]
    exact hb.1
  · simp only [if_neg he]
    intro c hc
    rcases List.mem_append.1 hc with h1 | h1
    · exact hb.1 c h1
    · rw [List.mem_singleton.1 h1]
      have := hb.2
      omega

/-- C1: for every input text, joining the chunks returned by
`split_text_into_chunks` with single spaces and splitting on whitespace
yields exactly the whitespace-delimited word sequence of the original
text: no word is dropped, duplicated, or reordered across chunk
boundaries. -/
theorem c1_chunks_preserve_word_sequence (text : List Char) (m : Nat) :
    pySplit (sjoin (split_text_into_chunks text m)) = pySplit text := by
  rw [split_chunks_eq_groups,
    sjoin_map_sjoin _ (chunkGroups_ne_nil m (pySplit text)),
    chunkGroups_join]
  exact splitWs_sjoin_words _ (pySplit_words_good text)

/-- C3 counterexample: with `max_tokens = 4`, the text `"a b c"` produces
the single chunk `"a b c"` of length 5, which exceeds
`max_tokens * 0.75` plus the length of every word of the input (all words
have length 1, and 5 > 3 + 1): the bound is missed by the joining space. -/
theorem c3_counterexample :
    ¬ (∀ c ∈ split_text_into_chunks "a b c".data 4,
        ∃ w ∈ pySplit "a b c".data, 4 * c.length ≤ 3 * 4 + 4 * w.length) := by
  decide

/-- C3 amended: every chunk's space-joined length is at most
`max_tokens * 0.75` plus the length of one word of the input plus one more
character for the space that joins that word on. -/
theorem c3_amended_overshoot_bound (text : List Char) (m : Nat)
    (c : List Char) (hc : c ∈ split_text_into_chunks text m) :
    ∃ w ∈ pySplit text, 4 * c.length ≤ 3 * m + 4 * (w.length + 1) := by
  have hwords : pySplit text ≠ [] := by
    intro hw
    rw [chunks_nil_of_words_nil text m hw] at hc
    simp at hc
  obtain ⟨w, hwmem, hwlen⟩ := maxWordLen_attained text hwords
  refine ⟨w, hwmem, ?_⟩
  have := chunk_length_bound text m c hc
  omega

theorem c3_amended_witness :
    "a b c".data ∈ split_text_into_chunks "a b c".data 4 ∧
      ∃ w ∈ pySplit "a b c".data,
        4 * ("a b c".data).length ≤ 3 * 4 + 4 * (w.length + 1) :=
  ⟨by decide, c3_amended_overshoot_bound "a b c".data 4 "a b c".data (by decide)⟩

/-- A nonempty text with no whitespace splits into itself as single word. -/
theorem pySplit_all_nonspace (w : List Char) (hne : w ≠ [])
    (hns : ∀ c ∈ w, isPySpace c = false) : pySplit w = [w] := by
  unfold pySplit
  have h2 := splitWsAux_nonspace w hns [] []
  simp only [List.append_nil] at h2
  rw [h2]
  have h3 : w.reverse.isEmpty = false := by
    by_cases hb : w.reverse.isEmpty = true
    · rw [List.isEmpty_iff, List.reverse_eq_nil_iff] at hb
      exact absurd hb hne
    · simpa using hb
  simp only [splitWsAux, h3, Bool.false_eq_true, if_false, List.reverse_reverse]

theorem chunks_single_word (m : Nat) (text w : List Char)
    (h1 : pySplit text = [w]) (hbig : 4 * w.length > 3 * m) :
    split_text_into_chunks text m = [w] := by
  unfold split_text_into_chunks
  rw [h1]
  simp only [List.foldl_cons, List.foldl_nil, chunkStep]
  have hc : 4 * (sjoin ([] ++ [w])).length > 3 * m := by
    have hsj : sjoin ([] ++ [w]) = w := rfl
    rw [hsj]
    exact hbig
  rw [if_pos hc]
  rfl

/-- C4 counterexample: at the default `max_tokens = 4000`, a single word
of 3001 characters becomes one chunk of length 3001, which is not
strictly below `4000 * 0.75 = 3000`. -/
theorem c4_counterexample :
    ¬ (∀ c ∈ split_text_into_chunks (List.replicate 3001 'a'),
        4 * c.length < 3 * 4000) := by
  intro h
  have hrep_ne : List.replicate 3001 'a' ≠ ([] : List Char) := by
    intro hcon
    have hl := congrArg List.length hcon
    rw [List.length_replicate] at hl
    simp at hl
  have hns : ∀ c ∈ List.replicate 3001 'a', isPySpace c = false := fun c hc => by
    rw [List.eq_of_mem_replicate hc]
    decide
  have h1 := pySplit_all_nonspace _ hrep_ne hns
  have h4 := chunks_single_word 4000 _ _ h1
    (by rw [List.length_replicate]; omega)
  have h5 := h (List.replicate 3001 'a')
    (by rw [h4]; exact List.mem_singleton_self _)
  rw [List.length_replicate] at h5
  omega

/-- C4 amended: a chunk's space-joined length need not stay strictly
below `max_tokens * 0.75`; the guaranteed bound is that soft cap plus the
longest input word plus one joining space. -/
theorem c4_amended_soft_cap (text : List Char) (m : Nat)
    (c : List Char) (hc : c ∈ split_text_into_chunks text m) :
    4 * c.length ≤ 3 * m + 4 * (maxWordLen text + 1) :=
  chunk_length_bound text m c hc

theorem c4_amended_witness :
    "aaaaa".data ∈ split_text_into_chunks "aaaaa".data 4 ∧
      4 * ("aaaaa".data).length ≤ 3 * 4 + 4 * (maxWordLen "aaaaa".data + 1) :=
  ⟨by decide, c4_amended_soft_cap "aaaaa".data 4 "aaaaa".data (by decide)⟩

/-! Merge lemmas -/

theorem mergeOneCompliance_ok (co : Json) (key cur cur' : String)
    (h : mergeOneCompliance co key cur = .ok cur') :
    cur' = if dataNC co key then "Non-compliant" else cur := by
  unfold mergeOneCompliance at h
  unfold dataNC
  cases hc : pyContains co key with
  | error e => simp only [hc] at h; cases h
  | ok b =>
    simp only [hc] at h ⊢
    cases b with
    | false => simp only [] at h ⊢; cases h; rfl
    | true =>
      simp only [] at h ⊢
      cases hi : pyIndex co key with
      | error e => simp only [hi] at h; cases h
      | ok v =>
        simp only [hi] at h ⊢
        by_cases hv : jsonEqStr v "Non-compliant" = true
        · rw [if_pos hv] at h
          cases h
          simp [hv]
        · rw [if_neg hv] at h
          cases h
          simp [hv]

theorem mergeCompliance_ok (data : Json) (c c' : Compliance)
    (h : mergeCompliance data c = .ok c') :
    c'.gdpr = (if dataSetsNC data "gdpr" then "Non-compliant" else c.gdpr) ∧
    c'.data_protection =
      (if dataSetsNC data "data_protection" then "Non-compliant"
       else c.data_protection) ∧
    c'.intellectual_property =
      (if dataSetsNC data "intellectual_property" then "Non-compliant"
       else c.intellectual_property) := by
  unfold mergeCompliance at h
  unfold dataSetsNC
  cases hc : pyContains data "compliance" with
  | error e => simp only [hc] at h; cases h
  | ok b =>
    simp only [hc] at h ⊢
    cases b with
    | false => simp only [] at h ⊢; cases h; exact ⟨rfl, rfl, rfl⟩
    | true =>
      simp only [] at h ⊢
      cases hi : pyIndex data "compliance" with
      | error e => simp only [hi] at h; cases h
      | ok co =>
        simp only [hi] at h ⊢
        cases hg : mergeOneCompliance co "gdpr" c.gdpr with
        | error e => simp only [hg] at h; cases h
        | ok g =>
          simp only [hg] at h
          cases hd : mergeOneCompliance co "data_protection" c.data_protection with
          | error e => simp only [hd] at h; cases h
          | ok d =>
            simp only [hd] at h
            cases hip : mergeOneCompliance co "intellectual_property"
                c.intellectual_property with
            | error e => simp only [hip] at h; cases h
            | ok i =>
              simp only [hip] at h
              cases h
              exact ⟨mergeOneCompliance_ok co "gdpr" c.gdpr g hg,
                mergeOneCompliance_ok co "data_protection" c.data_protection d hd,
                mergeOneCompliance_ok co "intellectual_property"
                  c.intellectual_property i hip⟩

theorem mergeData_compliance (data : Json) (r r' : Report)
    (h : mergeData data r = .ok r') :
    r'.compliance.gdpr =
      (if dataSetsNC data "gdpr" then "Non-compliant" else r.compliance.gdpr) ∧
    r'.compliance.data_protection =
      (if dataSetsNC data "data_protection" then "Non-compliant"
       else r.compliance.data_protection) ∧
    r'.compliance.intellectual_property =
      (if dataSetsNC data "intellectual_property" then "Non-compliant"
       else r.compliance.intellectual_property) := by
  unfold mergeData at h
  cases hra : mergeRisk data r.risk_analysis with
  | error e => simp only [hra] at h; cases h
  | ok ra =>
    simp only [hra] at h
    cases hco : mergeCompliance data r.compliance with
    | error e => simp only [hco] at h; cases h
    | ok co =>
      simp only [hco] at h
      cases hkc : mergeKeyClauses data r.key_clauses with
      | error e => simp only [hkc] at h; cases h
      | ok kc =>
        simp only [hkc] at h
        cases h
        exact mergeCompliance_ok data r.compliance co hco

theorem mergeStep_compliance (loads : String → Option Json) (st st' : Report × Nat)
    (resp : String) (h : mergeStep loads st resp = .ok st') :
    st'.1.compliance.gdpr =
      (if respSetsNC loads "gdpr" resp then "Non-compliant"
       else st.1.compliance.gdpr) ∧
    st'.1.compliance.data_protection =
      (if respSetsNC loads "data_protection" resp then "Non-compliant"
       else st.1.compliance.data_protection) ∧
    st'.1.compliance.intellectual_property =
      (if respSetsNC loads "intellectual_property" resp then "Non-compliant"
       else st.1.compliance.intellectual_property) := by
  unfold mergeStep at h
  unfold respSetsNC
  cases hl : loads resp with
  | none =>
    simp only [hl] at h ⊢
    cases h
    exact ⟨rfl, rfl, rfl⟩
  | some data =>
    simp only [hl] at h ⊢
    cases hd : mergeData data st.1 with
    | error e => simp only [hd] at h; cases h
    | ok r =>
      simp only [hd] at h
      cases h
      exact mergeData_compliance data st.1 r hd

theorem if_nc_comb (a b : Bool) (x y z : String)
    (h1 : y = if a then "Non-compliant" else x)
    (h2 : z = if b then "Non-compliant" else y) :
    z = if (a || b) then "Non-compliant" else x := by
  cases a <;> cases b <;> simp_all

theorem mergeFold_compliance (loads : String → Option Json) (rs : List String) :
    ∀ st st', mergeFold loads st rs = .ok st' →
      st'.1.compliance.gdpr =
        (if rs.any (respSetsNC loads "gdpr") then "Non-compliant"
         else st.1.compliance.gdpr) ∧
      st'.1.compliance.data_protection =
        (if rs.any (respSetsNC loads "data_protection") then "Non-compliant"
         else st.1.compliance.data_protection) ∧
      st'.1.compliance.intellectual_property =
        (if rs.any (respSetsNC loads "intellectual_property") then "Non-compliant"
         else st.1.compliance.intellectual_property) := by
  induction rs with
  | nil =>
    intro st st' h
    cases h
    exact ⟨rfl, rfl, rfl⟩
  | cons x rs ih =>
    intro st st' h
    unfold mergeFold at h
    cases hs : mergeStep loads st x with
    | error e => simp only [hs] at h; cases h
    | ok st1 =>
      simp only [hs] at h
      obtain ⟨hg1, hd1, hi1⟩ := mergeStep_compliance loads st st1 x hs
      obtain ⟨hg2, hd2, hi2⟩ := ih st1 st' h
      simp only [List.any_cons]
      exact ⟨if_nc_comb _ _ _ _ _ hg1 hg2,
        if_nc_comb _ _ _ _ _ hd1 hd2,
        if_nc_comb _ _ _ _ _ hi1 hi2⟩

theorem mergeFold_append (loads : String → Option Json) (xs ys : List String) :
    ∀ st, mergeFold loads st (xs ++ ys) =
      match mergeFold loads st xs with
      | .error e => .error e
      | .ok st' => mergeFold loads st' ys := by
  induction xs with
  | nil => intro st; rfl
  | cons x xs ih =>
    intro st
    have hL : mergeFold loads st ((x :: xs) ++ ys) =
        match mergeStep loads st x with
        | .error e => .error e
        | .ok st1 => mergeFold loads st1 (xs ++ ys) := rfl
    have hR : mergeFold loads st (x :: xs) =
        match mergeStep loads st x with
        | .error e => .error e
        | .ok st1 => mergeFold loads st1 xs := rfl
    rw [hL, hR]
    cases hs : mergeStep loads st x with
    | error e => rfl
    | ok st1 => exact ih st1

theorem nc_mono (a : Bool) (x y : String)
    (h : y = if a then "Non-compliant" else x)
    (hx : x = "Non-compliant") : y = "Non-compliant" := by
  cases a <;> simp_all

theorem perm_any {α : Type} (l l' : List α) (h : l.Perm l') (f : α → Bool) :
    l.any f = l'.any f := by
  cases h1 : l.any f with
  | true =>
    rw [List.any_eq_true] at h1
    obtain ⟨x, hx, hfx⟩ := h1
    exact (List.any_eq_true.2 ⟨x, h.mem_iff.1 hx, hfx⟩).symm
  | false =>
    cases h2 : l'.any f with
    | false => rfl
    | true =>
      rw [List.any_eq_true] at h2
      obtain ⟨x, hx, hfx⟩ := h2
      have := List.any_eq_true.2 ⟨x, h.mem_iff.2 hx, hfx⟩
      rw [h1] at this
      cases this

theorem mergeFold_warn_shift (loads : String → Option Json) (rs : List String) :
    ∀ (r : Report) (w k : Nat),
      mergeFold loads (r, w + k) rs =
        (mergeFold loads (r, w) rs).map (fun p => (p.1, p.2 + k)) := by
  induction rs with
  | nil => intro r w k; rfl
  | cons x rs ih =>
    intro r w k
    have hL : mergeFold loads (r, w + k) (x :: rs) =
        match mergeStep loads (r, w + k) x with
        | .error e => .error e
        | .ok st1 => mergeFold loads st1 rs := rfl
    have hR : mergeFold loads (r, w) (x :: rs) =
        match mergeStep loads (r, w) x with
        | .error e => .error e
        | .ok st1 => mergeFold loads st1 rs := rfl
    rw [hL, hR]
    unfold mergeStep
    cases hl : loads x with
    | none =>
      simp only []
      have hk : w + k + 1 = (w + 1) + k := by omega
      rw [hk]
      exact ih r (w + 1) k
    | some data =>
      simp only []
      cases hd : mergeData data r with
      | error e => rfl
      | ok r2 => exact ih r2 w k

/-- C2: each compliance field starts at `"Compliant"` and is only ever
downgraded while the responses are folded left to right: if a prefix of
the sequence already yields `"Non-compliant"` for a field, the full
sequence (whatever the remaining results, including ones carrying
`"Compliant"`) still yields `"Non-compliant"` for it. -/
theorem c2_compliance_monotone_downgrade (loads : String → Option Json)
    (xs ys : List String) (r r' : Report) (w w' : Nat)
    (h1 : merge_json_responses loads xs = .ok (r', w'))
    (h2 : merge_json_responses loads (xs ++ ys) = .ok (r, w)) :
    (r'.compliance.gdpr = "Non-compliant" →
      r.compliance.gdpr = "Non-compliant") ∧
    (r'.compliance.data_protection = "Non-compliant" →
      r.compliance.data_protection = "Non-compliant") ∧
    (r'.compliance.intellectual_property = "Non-compliant" →
      r.compliance.intellectual_property = "Non-compliant") := by
  unfold merge_json_responses at h1 h2
  rw [mergeFold_append] at h2
  rw [h1] at h2
  obtain ⟨hg, hd, hi⟩ := mergeFold_compliance loads ys (r', w') (r, w) h2
  exact ⟨fun hx => nc_mono _ _ _ hg hx,
    fun hx => nc_mono _ _ _ hd hx,
    fun hx => nc_mono _ _ _ hi hx⟩

theorem c2_witness :
    (reportNCG.compliance.gdpr = "Non-compliant" →
      reportNCG.compliance.gdpr = "Non-compliant") ∧
    (reportNCG.compliance.data_protection = "Non-compliant" →
      reportNCG.compliance.data_protection = "Non-compliant") ∧
    (reportNCG.compliance.intellectual_property = "Non-compliant" →
      reportNCG.compliance.intellectual_property = "Non-compliant") :=
  c2_compliance_monotone_downgrade loadsEx ["ncg"] ["cg"]
    reportNCG reportNCG 0 0 rfl rfl

/-- C5: the three compliance fields of the merged report do not depend on
the order in which the chunk results are submitted: merging any
permutation of a sequence (when both merges complete) yields the same
`compliance` component. -/
theorem c5_compliance_permutation_invariant (loads : String → Option Json)
    (rs rs' : List String) (hperm : rs.Perm rs')
    (r r' : Report) (w w' : Nat)
    (h1 : merge_json_responses loads rs = .ok (r, w))
    (h2 : merge_json_responses loads rs' = .ok (r', w')) :
    r.compliance = r'.compliance := by
  obtain ⟨hg1, hd1, hi1⟩ :=
    mergeFold_compliance loads rs (defaultReport, 0) (r, w) h1
  obtain ⟨hg2, hd2, hi2⟩ :=
    mergeFold_compliance loads rs' (defaultReport, 0) (r', w') h2
  rw [perm_any rs rs' hperm] at hg1 hd1 hi1
  calc r.compliance
      = ⟨r.compliance.gdpr, r.compliance.data_protection,
          r.compliance.intellectual_property⟩ := rfl
    _ = ⟨r'.compliance.gdpr, r'.compliance.data_protection,
          r'.compliance.intellectual_property⟩ := by
        rw [hg1, hd1, hi1, hg2, hd2, hi2]
    _ = r'.compliance := rfl

theorem c5_witness : reportNCGKC.compliance = reportNCGKC.compliance :=
  c5_compliance_permutation_invariant loadsEx ["ncg", "kc"] ["kc", "ncg"]
    (by decide) reportNCGKC reportNCGKC 0 0 rfl rfl

/-- C6: a response that fails to parse as JSON is reported as a warning
and skipped: the merge of any sequence containing it returns the same
report as the merge of the sequence with that response removed, with
exactly one extra warning, and the remaining results are still merged. -/
theorem c6_unparseable_response_skipped (loads : String → Option Json)
    (s : String) (hs : loads s = none) (xs ys : List String) :
    merge_json_responses loads (xs ++ s :: ys) =
      (merge_json_responses loads (xs ++ ys)).map (fun p => (p.1, p.2 + 1)) := by
  unfold merge_json_responses
  rw [mergeFold_append, mergeFold_append]
  cases hx : mergeFold loads (defaultReport, 0) xs with
  | error e => rfl
  | ok st =>
    have h1 : mergeFold loads st (s :: ys) =
        mergeFold loads (st.1, st.2 + 1) ys := by
      have hstep : mergeStep loads st s = .ok (st.1, st.2 + 1) := by
        unfold mergeStep
        rw [hs]
      have hL : mergeFold loads st (s :: ys) =
          match mergeStep loads st s with
          | .error e => .error e
          | .ok st1 => mergeFold loads st1 ys := rfl
      rw [hL, hstep]
    show mergeFold loads st (s :: ys) =
      Except.map (fun p => (p.1, p.2 + 1)) (mergeFold loads st ys)
    rw [h1]
    exact mergeFold_warn_shift loads ys st.1 st.2 1

theorem c6_witness :
    loadsEx "bad" = none ∧
      merge_json_responses loadsEx (["ncg"] ++ "bad" :: ["kc"]) =
        (merge_json_responses loadsEx (["ncg"] ++ ["kc"])).map
          (fun p => (p.1, p.2 + 1)) :=
  ⟨rfl, c6_unparseable_response_skipped loadsEx "bad" rfl ["ncg"] ["kc"]⟩

/-- C7: merging the empty sequence of chunk results returns exactly the
default report: three empty risk lists, all three compliance fields
`"Compliant"`, an empty key-clause list, and no warnings. -/
theorem c7_empty_merge_is_default (loads : String → Option Json) :
    merge_json_responses loads [] =
      .ok (⟨⟨[], [], []⟩, ⟨"Compliant", "Compliant", "Compliant"⟩, []⟩, 0) :=
  rfl

/-- C9: the merge guards only against JSON decode failure.  A response
that parses to the JSON number `5` makes the membership test raise
`TypeError`, and one whose `risk_analysis` is a list makes the string
indexing raise `TypeError`; either way the whole merge aborts and the
contribution of the other, well-formed response (which alone yields
`reportKC`) is discarded instead of being returned with a warning. -/
theorem c9_non_report_json_aborts_merge :
    merge_json_responses loadsEx ["kc", "five"] = .error .typeError ∧
      merge_json_responses loadsEx ["kc", "ralist"] = .error .typeError ∧
      merge_json_responses loadsEx ["kc"] = .ok (reportKC, 0) :=
  ⟨rfl, rfl, rfl⟩

/-- C8: when every per-chunk completion call fails, `analyze_contract`
still returns the report obtained by merging zero successful replies (the
all-default report, no parse warnings) rather than raising, and one
failed-call warning was emitted per chunk. -/
theorem c8_all_calls_failed_defaulted_report (loads : String → Option Json)
    (complete : List Char → Option String) (contract_text : List Char)
    (hfail : ∀ c ∈ split_text_into_chunks contract_text, complete c = none) :
    analyze_contract loads complete contract_text =
      ((split_text_into_chunks contract_text).length,
        .ok (defaultReport, 0)) := by
  unfold analyze_contract
  have hfilter : (split_text_into_chunks contract_text).filter
      (fun c => (complete c).isNone) = split_text_into_chunks contract_text := by
    rw [List.filter_eq_self]
    intro a ha
    rw [hfail a ha]
    rfl
  have hfm : (split_text_into_chunks contract_text).filterMap (fun c =>
      match complete c with
      | none => none
      | some s => if s.isEmpty then none else some s) = [] := by
    rw [List.filterMap_eq_nil_iff]
    intro a ha
    rw [hfail a ha]
  simp only [hfilter, hfm]
  rfl

theorem c8_witness :
    (∀ c ∈ split_text_into_chunks "hello world".data,
        (fun _ : List Char => (none : Option String)) c = none) ∧
      analyze_contract (fun _ => none) (fun _ => none) "hello world".data =
        ((split_text_into_chunks "hello world".data).length,
          .ok (defaultReport, 0)) :=
  ⟨fun _ _ => rfl,
    c8_all_calls_failed_defaulted_report (fun _ => none) (fun _ => none)
      "hello world".data (fun _ _ => rfl)⟩

/-- C10: a completion call that succeeds but returns the empty string is
falsy, so `analyze_contract` silently drops it: no warning is emitted (the
failed-call count is 0) and it contributes nothing to the merged report. -/
theorem c10_empty_reply_silently_dropped (loads : String → Option Json)
    (complete : List Char → Option String) (contract_text : List Char)
    (hempty : ∀ c ∈ split_text_into_chunks contract_text, complete c = some "") :
    analyze_contract loads complete contract_text =
      (0, .ok (defaultReport, 0)) := by
  unfold analyze_contract
  have hfilter : (split_text_into_chunks contract_text).filter
      (fun c => (complete c).isNone) = [] := by
    rw [List.filter_eq_nil_iff]
    intro a ha
    rw [hempty a ha]
    simp
  have hfm : (split_text_into_chunks contract_text).filterMap (fun c =>
      match complete c with
      | none => none
      | some s => if s.isEmpty then none else some s) = [] := by
    rw [List.filterMap_eq_nil_iff]
    intro a ha
    rw [hempty a ha]
    rfl
  simp only [hfilter, hfm, List.length_nil]
  rfl

theorem c10_witness :
    (∀ c ∈ split_text_into_chunks "hello world".data,
        (fun _ : List Char => (some "" : Option String)) c = some "") ∧
      analyze_contract (fun _ => none) (fun _ => some "") "hello world".data =
        (0, .ok (defaultReport, 0)) :=
  ⟨fun _ _ => rfl,
    c10_empty_reply_silently_dropped (fun _ => none) (fun _ => some "")
      "hello world".data (fun _ _ => rfl)⟩
